import Mathlib

/-!
Verification of the budget-tracking and spending-trend analytics core of the
Personal-Management web application.

The development shallowly embeds the pure core found in
`src/pages/FinancePage.tsx` (category normalization, internal-transfer
detection, month-key handling, the per-category/month expense aggregation,
the budget evaluator, and the alert-dismissal purge) and in
`src/components/TrendAnalysisModal.tsx` (the monthly trend analyzer).

Modelling conventions:
* JavaScript numbers are modelled as exact rationals (`Rat`); the source
  performs only `+`, `-`, `*`, `/`, `max` and comparisons on them.
* A transaction's `createdAt` string is represented by the result of
  `new Date(createdAt)` month extraction: `Option MonthDate`, where `none`
  stands for an unparseable date (`Number.isNaN(date.getTime())`) and
  `some d` carries `getFullYear()` and `getMonth()` of the parsed date.
* JavaScript string operations used by the core (`trim`, `split('-')`,
  `toLowerCase`, `includes`, `Number(...)` on year/month fragments,
  template-literal concatenation) are given executable character-list
  models below; `Number(...)` is modelled on canonical digit strings
  (the only shapes the application produces for month keys), other JS
  numeric-literal shapes (signs, blanks, decimals) are out of scope.
* A JavaScript `Map`/plain-object keyed by strings is modelled as an
  insertion-ordered association list with JS `Map.set`/`Map.get` semantics.
-/

/-- JS `String.prototype.split` restricted to a single-character separator,
acting on character lists: splits at every occurrence of `sep`. -/
def splitOnChar (sep : Char) : List Char → List (List Char)
  | [] => [[]]
  | c :: rest =>
    let r := splitOnChar sep rest
    if c = sep then [] :: r
    else
      match r with
      | [] => [[c]]
      | g :: gs => (c :: g) :: gs

/-- JS `s.split(sep)` for a one-character separator. -/
def jsSplit (s : String) (sep : Char) : List String :=
  (splitOnChar sep s.data).map (fun cs => ⟨cs⟩)

/-- Drops leading whitespace characters from a character list. -/
def dropLeadingWhitespace : List Char → List Char
  | [] => []
  | c :: rest => if c.isWhitespace then dropLeadingWhitespace rest else c :: rest

/-- JS `s.trim()`: removes leading and trailing whitespace. -/
def jsTrim (s : String) : String :=
  ⟨(dropLeadingWhitespace (dropLeadingWhitespace s.data.reverse).reverse)⟩

/-- Decimal value of a digit list (used to model `Number(...)` on digit strings). -/
def digitsToNat (cs : List Char) : Nat :=
  cs.foldl (fun n c => n * 10 + (c.toNat - '0'.toNat)) 0

/-- JS `Number(s)` restricted to the shapes the core feeds it: the empty
string evaluates to `0`, a non-empty all-digit string to its decimal value,
and anything else to NaN (modelled as `none`). -/
def jsStringToNat (s : String) : Option Nat :=
  if s.data = [] then some 0
  else if s.data.all (fun c => c.isDigit) then some (digitsToNat s.data)
  else none

/-- JS `s.toLowerCase()` (ASCII case mapping, which covers every constant
the internal-transfer heuristic compares against). -/
def jsToLower (s : String) : String :=
  ⟨s.data.map Char.toLower⟩

/-- Prefix test on character lists (helper for the JS `includes` model). -/
def charListHasStart : List Char → List Char → Bool
  | _, [] => true
  | [], _ :: _ => false
  | a :: as, b :: bs => a = b && charListHasStart as bs

/-- Substring occurrence test on character lists. -/
def charListHasSub : List Char → List Char → Bool
  | s, pat =>
    charListHasStart s pat ||
      match s with
      | [] => false
      | _ :: rest => charListHasSub rest pat

/-- JS `s.includes(pat)`. -/
def jsIncludes (s pat : String) : Bool :=
  charListHasSub s.data pat.data

/-- Association list with JavaScript `Map` semantics: `mapSet` updates the
first binding of the key in place, else appends; `mapGet` returns the first
binding. Models both `Map<string, number>` and the plain objects used as
id-keyed records. -/
def mapSet {α β : Type} [DecidableEq α] : List (α × β) → α → β → List (α × β)
  | [], k, v => [(k, v)]
  | (k', v') :: rest, k, v =>
    if k' = k then (k, v) :: rest else (k', v') :: mapSet rest k v

/-- JS `Map.get` (returning `undefined` as `none`). -/
def mapGet {α β : Type} [DecidableEq α] : List (α × β) → α → Option β
  | [], _ => none
  | (k', v') :: rest, k => if k' = k then some v' else mapGet rest k

theorem mapGet_mapSet {α β : Type} [DecidableEq α] (m : List (α × β)) (k k' : α) (v : β) :
    mapGet (mapSet m k v) k' = if k' = k then some v else mapGet m k' := by
  induction m with
  | nil =>
    by_cases h : k' = k
    · subst h; simp [mapSet, mapGet]
    · simp [mapSet, mapGet, h, Ne.symm h]
  | cons hd tl ih =>
    obtain ⟨k₀, v₀⟩ := hd
    by_cases h0 : k₀ = k
    · subst h0
      by_cases h : k' = k₀
      · subst h; simp [mapSet, mapGet]
      · simp [mapSet, mapGet, h, Ne.symm h]
    · by_cases h : k' = k₀
      · subst h
        simp [mapSet, mapGet, h0, Ne.symm h0]
      · simp [mapSet, mapGet, h0, h, Ne.symm h, ih]

/-- Transaction kind (`type: 'income' | 'expense'` in `src/types.ts`). -/
inductive TxType
  | income
  | expense
deriving DecidableEq

/-- Year and zero-based month of a successfully parsed `createdAt` date
(`getFullYear()` / `getMonth()` of a valid JS `Date`). -/
structure MonthDate where
  year : Nat
  month : Fin 12
deriving DecidableEq

/-- Transaction record (`src/types.ts`), restricted to the fields the
analytics core reads; `createdAt` carries the parsed month (see header). -/
structure Transaction where
  id : String
  amount : Rat
  category : String
  type : TxType
  note : Option String
  source : Option String
  createdAt : Option MonthDate
deriving DecidableEq

/-- Category sentinel and normalization from `src/utils/transactions.ts`:
trim, and replace an empty result with the sentinel label. -/
def normalizeCategoryName (value : Option String) : String :=
  let normalized := jsTrim (value.getD "")
  if normalized = "" then "Không phân loại" else normalized

/-- Reserved category marking internal transfers (`src/utils/transactions.ts`,
redeclared in `src/pages/FinancePage.tsx`). -/
def INTERNAL_TRANSFER_CATEGORY : String := "Rút tiền"

/-- Wallet source keys treated as internal-transfer sources. -/
def INTERNAL_TRANSFER_SOURCE_KEYS : List String := ["binance"]

/-- Internal-transfer heuristic (`isInternalTransferExpense` in
`src/pages/FinancePage.tsx`): an expense in the reserved category whose
source key is a known wallet, or whose note mentions the wallet. -/
def isInternalTransferExpense (t : Transaction) : Bool :=
  if t.type ≠ TxType.expense then false
  else
    let categoryName := normalizeCategoryName (some t.category)
    if categoryName ≠ INTERNAL_TRANSFER_CATEGORY then false
    else
      let sourceKey := t.source.map (fun s => jsToLower (jsTrim s))
      match sourceKey with
      | some k =>
        if k ≠ "" ∧ INTERNAL_TRANSFER_SOURCE_KEYS.contains k then true
        else jsIncludes (jsToLower (t.note.getD "")) "binance"
      | none => jsIncludes (jsToLower (t.note.getD "")) "binance"

/-- Month key `YYYY-MM` of a date (`toMonthKey` in `src/pages/FinancePage.tsx`):
the empty string for an invalid date, else year, dash, and the one-based
month padded to two digits. -/
def toMonthKey (date : Option MonthDate) : String :=
  match date with
  | none => ""
  | some d =>
    let monthNumber := d.month.val + 1
    toString d.year ++ "-" ++
      (if monthNumber < 10 then "0" ++ toString monthNumber else toString monthNumber)

/-- Accumulation step of `expensesByCategoryMonth`
(`src/pages/FinancePage.tsx` lines 747-760): skip non-expenses, internal
transfers and unparseable dates, then add the amount under the
`month|category` composite key. -/
def aggStep (totals : List (String × Rat)) (t : Transaction) : List (String × Rat) :=
  if t.type ≠ TxType.expense then totals
  else if isInternalTransferExpense t then totals
  else
    let monthKey := toMonthKey t.createdAt
    if monthKey = "" then totals
    else
      let category := normalizeCategoryName (some t.category)
      let key := monthKey ++ "|" ++ category
      mapSet totals key ((mapGet totals key).getD 0 + t.amount)

/-- Aggregation Engine: per-(month, category) expense totals
(`expensesByCategoryMonth` in `src/pages/FinancePage.tsx`). -/
def expensesByCategoryMonth (transactions : List Transaction) : List (String × Rat) :=
  transactions.foldl aggStep []

/-- Budget record (`src/types.ts`), restricted to the fields the evaluator
reads (`createdAt`/`updatedAt` timestamps are carried through untouched
by the evaluator and omitted here). -/
structure Budget where
  id : String
  category : String
  month : String
  limitAmount : Rat
deriving DecidableEq

/-- Budget progress status (`BudgetProgress['status']` in `src/types.ts`). -/
inductive BudgetStatus
  | ok
  | warning
  | danger
  | noLimit
deriving DecidableEq

/-- Derived budget view model (`BudgetProgress` in `src/types.ts`). -/
structure BudgetProgress where
  id : String
  category : String
  month : String
  limitAmount : Rat
  spent : Rat
  percent : Rat
  status : BudgetStatus
  remaining : Rat
  overspent : Rat
deriving DecidableEq

/-- Month-key parser (`parseMonthKey` in `src/pages/FinancePage.tsx`):
split on the dash, convert the first two fragments with `Number(...)`,
reject non-finite values and out-of-range months. -/
def parseMonthKey (month : String) : Option (Nat × Nat) :=
  match jsSplit month '-' with
  | yearStr :: monthStr :: _ =>
    match jsStringToNat yearStr, jsStringToNat monthStr with
    | some year, some monthNumber =>
      if monthNumber < 1 ∨ 12 < monthNumber then none else some (year, monthNumber)
    | _, _ => none
  | _ => none

/-- Month-key comparison (`compareMonthKeys` in `src/pages/FinancePage.tsx`):
empty or unparseable keys sort first, otherwise compare year then month. -/
def compareMonthKeys (a b : String) : Int :=
  if a = "" ∧ b = "" then 0
  else if a = "" then -1
  else if b = "" then 1
  else
    match parseMonthKey a, parseMonthKey b with
    | none, none => 0
    | none, some _ => -1
    | some _, none => 1
    | some parsedA, some parsedB =>
      if parsedA.1 ≠ parsedB.1 then (parsedA.1 : Int) - (parsedB.1 : Int)
      else (parsedA.2 : Int) - (parsedB.2 : Int)

/-- Budget Evaluator, per-budget body of `budgetsWithSpending`
(`src/pages/FinancePage.tsx` lines 762-794): normalize the category, default
an empty stored month to the current month, clamp a past month forward to
the current month, look up spent under the `month|category` key (defaulting
to 0), and derive percent, status, remaining and overspent. -/
def evaluateBudget (expByCatMonth : List (String × Rat)) (currentMonthKey : String)
    (budget : Budget) : BudgetProgress :=
  let category := normalizeCategoryName (some budget.category)
  let rawMonth := jsTrim budget.month
  let month0 := if rawMonth = "" then currentMonthKey else rawMonth
  let month :=
    if month0 ≠ "" ∧ currentMonthKey ≠ "" ∧ compareMonthKeys month0 currentMonthKey < 0
    then currentMonthKey else month0
  let key := month ++ "|" ++ category
  let spent := (mapGet expByCatMonth key).getD 0
  let limitAmount := budget.limitAmount
  let hasLimit := 0 < limitAmount
  let percent := if hasLimit ∧ 0 < limitAmount then spent / limitAmount * 100 else 0
  let status :=
    if hasLimit then
      if limitAmount ≤ spent then BudgetStatus.danger
      else if limitAmount * (0.8 : Rat) ≤ spent then BudgetStatus.warning
      else BudgetStatus.ok
    else BudgetStatus.noLimit
  let remaining := if hasLimit then max (limitAmount - spent) 0 else 0
  let overspent := if hasLimit then max (spent - limitAmount) 0 else 0
  { id := budget.id
    category := category
    month := month
    limitAmount := limitAmount
    spent := spent
    percent := if hasLimit then percent else 0
    status := status
    remaining := remaining
    overspent := overspent }

/-- Budget Evaluator applied to the whole budget list
(`budgetsWithSpending` in `src/pages/FinancePage.tsx`). The source's final
display sort (month descending, then locale-aware category collation) is a
presentation concern, does not change any entry, and is not modelled. -/
def budgetsWithSpending (budgets : List Budget) (currentMonthKey : String)
    (expByCatMonth : List (String × Rat)) : List BudgetProgress :=
  budgets.map (evaluateBudget expByCatMonth currentMonthKey)

/-- Danger-status budgets (`overspentBudgets` in `src/pages/FinancePage.tsx`). -/
def overspentBudgets (bs : List BudgetProgress) : List BudgetProgress :=
  bs.filter (fun b => b.status = BudgetStatus.danger)

/-- Alert view: danger budgets whose id is not dismissed
(`activeBudgetAlerts` in `src/pages/FinancePage.tsx`). The record
`Record<string, boolean>` of dismissals is modelled by its set of keys. -/
def activeBudgetAlerts (bs : List BudgetProgress) (dismissed : List String) :
    List BudgetProgress :=
  (overspentBudgets bs).filter (fun b => ¬ dismissed.contains b.id)

/-- Dismissal purge (`useEffect` in `src/pages/FinancePage.tsx` lines
826-851, first updater): walk the recomputed budget list and delete the id
of every budget whose status is no longer danger from the dismissal set. -/
def purgeDismissed (bs : List BudgetProgress) (dismissed : List String) : List String :=
  bs.foldl
    (fun next b =>
      if b.status = BudgetStatus.danger then next else next.filter (fun id => id ≠ b.id))
    dismissed

/-- Error-map purge (same `useEffect`, second updater): identical walk over
the per-budget error-message record, modelled as an association list. -/
def purgeErrors (bs : List BudgetProgress) (errors : List (String × String)) :
    List (String × String) :=
  bs.foldl
    (fun next b =>
      if b.status = BudgetStatus.danger then next else next.filter (fun e => e.1 ≠ b.id))
    errors

/-- Look-back range selector (`RANGE_OPTIONS` keys in
`src/components/TrendAnalysisModal.tsx`). -/
inductive TrendRangeKey
  | m3
  | m6
  | m12
  | m24
  | all
deriving DecidableEq

/-- Months of look-back for a range key (`RANGE_OPTIONS[...].months`;
`undefined` for the full-data range). -/
def rangeMonths : TrendRangeKey → Option Int
  | TrendRangeKey.m3 => some 3
  | TrendRangeKey.m6 => some 6
  | TrendRangeKey.m12 => some 12
  | TrendRangeKey.m24 => some 24
  | TrendRangeKey.all => none

/-- Chart point (`TrendPoint` in `src/components/TrendChart.tsx`). The
first-of-month `Date` marker is represented by its linear month index
`year * 12 + month0` (JS `Date` comparison and month arithmetic on
first-of-month dates coincide with `Int` order and arithmetic on this
index, and the internal `` `${year}-${month0}` `` map key is in bijection
with it). -/
structure TrendPoint where
  label : String
  value : Rat
  date : Int
deriving DecidableEq

/-- Result record of `computeMonthlyTrend`
(`TrendComputation` in `src/components/TrendAnalysisModal.tsx`). -/
structure TrendComputation where
  points : List TrendPoint
  total : Rat
  average : Rat
  maxPoint : Option TrendPoint
  lastPoint : Option TrendPoint
  previousPoint : Option TrendPoint
  trailingAverage : Rat
  previousTrailingAverage : Option Rat
  nonZeroMonths : Nat
deriving DecidableEq

/-- Linear month index of a parsed date normalized to its month
(`normalizeMonth` composed with the index representation above). -/
def monthIndex (d : MonthDate) : Int :=
  (d.year : Int) * 12 + (d.month.val : Int)

/-- Chart month label ``TMM/YY`` (`MONTH_LABELS[...]` plus the last two
characters of the year, as in `computeMonthlyTrend`). -/
def MONTH_LABELS : List String :=
  ["T01", "T02", "T03", "T04", "T05", "T06",
   "T07", "T08", "T09", "T10", "T11", "T12"]

/-- Label of a month given by linear index. -/
def monthLabel (idx : Int) : String :=
  let yearStr := toString (idx / 12)
  MONTH_LABELS.getD (idx % 12).toNat "" ++ "/" ++ yearStr.drop (yearStr.length - 2)

/-- State threaded through the first pass of `computeMonthlyTrend`: the
per-month totals map and the running min/max month. -/
structure TrendScanState where
  totals : List (Int × Rat)
  minMonth : Option Int
  maxMonth : Option Int
deriving DecidableEq

/-- One step of the first pass of `computeMonthlyTrend`
(`expenseTransactions.forEach(...)`): skip unparseable dates, accumulate the
amount under the month key, and update the running min/max month. -/
def trendScanStep (s : TrendScanState) (t : Transaction) : TrendScanState :=
  match t.createdAt with
  | none => s
  | some d =>
    let idx := monthIndex d
    { totals := mapSet s.totals idx ((mapGet s.totals idx).getD 0 + t.amount)
      minMonth := some (match s.minMonth with
        | none => idx
        | some mn => if idx < mn then idx else mn)
      maxMonth := some (match s.maxMonth with
        | none => idx
        | some mx => if mx < idx then idx else mx) }

/-- First pass of `computeMonthlyTrend`: filter to expenses and scan. -/
def trendScan (transactions : List Transaction) : TrendScanState :=
  (transactions.filter (fun t => t.type = TxType.expense)).foldl trendScanStep
    ⟨[], none, none⟩

/-- Window start (`computeMonthlyTrend` range clip): for a positive finite
look-back of `n` months, move the start forward to `end - (n - 1)` when that
is later than the data start. -/
def trendStart (mn mx : Int) (range : TrendRangeKey) : Int :=
  match rangeMonths range with
  | some n => if 0 < n ∧ mn < mx - (n - 1) then mx - (n - 1) else mn
  | none => mn

/-- Point emission loop of `computeMonthlyTrend`: one zero-filled point per
month from `start` to `endM` inclusive. -/
def buildTrendPoints (totals : List (Int × Rat)) (start endM : Int) : List TrendPoint :=
  (List.range ((max 0 (endM - start)).toNat + 1)).map (fun (offset : Nat) =>
    let idx := start + (offset : Int)
    { label := monthLabel idx
      value := (mapGet totals idx).getD 0
      date := idx })

/-- Derived statistics of `computeMonthlyTrend` over the emitted points:
total, average, peak point (first wins ties), last/previous points,
trailing and previous-trailing 3-month averages, and non-zero month count. -/
def trendStats (points : List TrendPoint) : TrendComputation :=
  let total := (points.map (fun p => p.value)).sum
  let average := if points.length ≠ 0 then total / (points.length : Rat) else 0
  let maxPoint := points.foldl
    (fun acc p =>
      match acc with
      | none => some p
      | some q => if q.value < p.value then some p else acc)
    none
  let lastPoint := if points.length ≠ 0 then points[points.length - 1]? else none
  let previousPoint := if 1 < points.length then points[points.length - 2]? else none
  let trailingWindow := min 3 points.length
  let trailingPoints := points.drop (points.length - trailingWindow)
  let trailingAverage :=
    if trailingPoints.length ≠ 0 then
      (trailingPoints.map (fun p => p.value)).sum / (trailingPoints.length : Rat)
    else 0
  let sliceStart := points.length - 2 * trailingWindow
  let sliceStop := points.length - trailingWindow
  let previousTrailingPoints := (points.drop sliceStart).take (sliceStop - sliceStart)
  let previousTrailingAverage :=
    if previousTrailingPoints.length ≠ 0 then
      some ((previousTrailingPoints.map (fun p => p.value)).sum /
        (previousTrailingPoints.length : Rat))
    else none
  let nonZeroMonths := (points.filter (fun p => 0 < p.value)).length
  { points := points
    total := total
    average := average
    maxPoint := maxPoint
    lastPoint := lastPoint
    previousPoint := previousPoint
    trailingAverage := trailingAverage
    previousTrailingAverage := previousTrailingAverage
    nonZeroMonths := nonZeroMonths }

/-- All-empty result returned when no expense has a parseable date. -/
def emptyTrend : TrendComputation :=
  { points := []
    total := 0
    average := 0
    maxPoint := none
    lastPoint := none
    previousPoint := none
    trailingAverage := 0
    previousTrailingAverage := none
    nonZeroMonths := 0 }

/-- Trend Analyzer (`computeMonthlyTrend` in
`src/components/TrendAnalysisModal.tsx`): scan expenses into monthly
totals, window the month span by the selected range, emit zero-filled
points, and derive the statistics. -/
def computeMonthlyTrend (transactions : List Transaction) (range : TrendRangeKey) :
    TrendComputation :=
  let scan := trendScan transactions
  match scan.minMonth, scan.maxMonth with
  | some mn, some mx => trendStats (buildTrendPoints scan.totals (trendStart mn mx range) mx)
  | _, _ => emptyTrend

/-- Months each expense transaction with a parseable date contributes to the
trend scan, in list order (specification-level view of the scanned data). -/
def monthsOf (l : List Transaction) : List Int :=
  l.filterMap (fun t => t.createdAt.map monthIndex)

/-- Month indices of the expense transactions with parseable dates. -/
def dataMonths (transactions : List Transaction) : List Int :=
  monthsOf (transactions.filter (fun t => t.type = TxType.expense))

/-- Number of calendar-month steps from `a` to `b` (0 when `b ≤ a`). -/
def monthsBetween (a b : Int) : Nat :=
  (b - a).toNat

theorem parseMonthKey_empty : parseMonthKey "" = none := by decide

theorem parseMonthKey_ne_empty {a : String} {p : Nat × Nat}
    (h : parseMonthKey a = some p) : a ≠ "" := by
  intro he
  rw [he, parseMonthKey_empty] at h
  exact Option.noConfusion h

theorem compareMonthKeys_self (a : String) : compareMonthKeys a a = 0 := by
  unfold compareMonthKeys
  by_cases h : a = ""
  · simp [h]
  · simp only [h, and_self, if_false, if_neg h]
    cases hp : parseMonthKey a with
    | none => simp
    | some p => simp

theorem compareMonthKeys_lt_iff {a b : String} {pa pb : Nat × Nat}
    (ha : parseMonthKey a = some pa) (hb : parseMonthKey b = some pb) :
    compareMonthKeys a b < 0 ↔ (pa.1 < pb.1 ∨ (pa.1 = pb.1 ∧ pa.2 < pb.2)) := by
  have ha' := parseMonthKey_ne_empty ha
  have hb' := parseMonthKey_ne_empty hb
  unfold compareMonthKeys
  rw [if_neg (by simp [ha']), if_neg ha', if_neg hb', ha, hb]
  show (if pa.1 ≠ pb.1 then ((pa.1 : Int) - (pb.1 : Int)) else ((pa.2 : Int) - (pb.2 : Int))) < 0
    ↔ (pa.1 < pb.1 ∨ (pa.1 = pb.1 ∧ pa.2 < pb.2))
  by_cases h : pa.1 = pb.1
  · rw [if_neg (by simp [h])]
    constructor
    · intro hlt
      exact Or.inr ⟨h, by omega⟩
    · rintro (hlt | ⟨-, hlt⟩) <;> omega
  · rw [if_pos (by simpa using h)]
    constructor
    · intro hlt
      exact Or.inl (by omega)
    · rintro (hlt | ⟨heq, -⟩)
      · omega
      · exact absurd heq h

/-- C1: for every budget evaluated by the Budget Evaluator, a non-positive
limit yields status `no-limit` with percent 0 regardless of spent; a
positive limit yields `danger` exactly when spent has reached the limit,
`warning` exactly when spent has reached 0.8 of the limit but not the
limit, and `ok` otherwise — both threshold boundaries inclusive. -/
theorem budget_status_thresholds (agg : List (String × Rat)) (currentMonthKey : String)
    (b : Budget) :
    (b.limitAmount ≤ 0 →
      (evaluateBudget agg currentMonthKey b).status = BudgetStatus.noLimit ∧
      (evaluateBudget agg currentMonthKey b).percent = 0) ∧
    (0 < b.limitAmount →
      ((evaluateBudget agg currentMonthKey b).status = BudgetStatus.danger ↔
        b.limitAmount ≤ (evaluateBudget agg currentMonthKey b).spent) ∧
      ((evaluateBudget agg currentMonthKey b).status = BudgetStatus.warning ↔
        (0.8 : Rat) * b.limitAmount ≤ (evaluateBudget agg currentMonthKey b).spent ∧
        (evaluateBudget agg currentMonthKey b).spent < b.limitAmount) ∧
      ((evaluateBudget agg currentMonthKey b).status = BudgetStatus.ok ↔
        (evaluateBudget agg currentMonthKey b).spent < (0.8 : Rat) * b.limitAmount)) := by
  have hstat : (evaluateBudget agg currentMonthKey b).status =
      (if 0 < b.limitAmount then
        if b.limitAmount ≤ (evaluateBudget agg currentMonthKey b).spent then
          BudgetStatus.danger
        else if b.limitAmount * (0.8 : Rat) ≤ (evaluateBudget agg currentMonthKey b).spent then
          BudgetStatus.warning
        else BudgetStatus.ok
      else BudgetStatus.noLimit) := rfl
  have hpct : (evaluateBudget agg currentMonthKey b).percent =
      (if 0 < b.limitAmount then
        (if (0 < b.limitAmount ∧ 0 < b.limitAmount) then
          (evaluateBudget agg currentMonthKey b).spent / b.limitAmount * 100 else 0)
      else 0) := rfl
  set s := (evaluateBudget agg currentMonthKey b).spent with hs
  rw [hstat, hpct]
  by_cases hL : 0 < b.limitAmount
  · refine ⟨fun h => absurd hL (not_lt.mpr h), fun _ => ?_⟩
    have hcomm : b.limitAmount * (0.8 : Rat) = (0.8 : Rat) * b.limitAmount := mul_comm _ _
    by_cases h1 : b.limitAmount ≤ s
    · have h2 : b.limitAmount * (0.8 : Rat) ≤ s := by nlinarith
      simp only [if_pos hL, if_pos h1]
      refine ⟨by simp [h1], ?_, ?_⟩
      · simp only [hcomm] at h2
        constructor
        · intro hd; exact absurd hd (by simp)
        · rintro ⟨-, hlt⟩; exact absurd h1 (not_le.mpr hlt)
      · constructor
        · intro hd; exact absurd hd (by simp)
        · intro hlt
          rw [hcomm] at h2
          exact absurd h2 (not_le.mpr hlt)
    · simp only [if_pos hL, if_neg h1]
      by_cases h2 : b.limitAmount * (0.8 : Rat) ≤ s
      · simp only [if_pos h2]
        refine ⟨?_, ?_, ?_⟩
        · constructor
          · intro hd; exact absurd hd (by simp)
          · intro hle; exact absurd hle h1
        · simp [hcomm ▸ h2, not_le.mp h1]
        · constructor
          · intro hd; exact absurd hd (by simp)
          · intro hlt
            rw [hcomm] at h2
            exact absurd h2 (not_le.mpr hlt)
      · simp only [if_neg h2]
        refine ⟨?_, ?_, ?_⟩
        · constructor
          · intro hd; exact absurd hd (by simp)
          · intro hle; exact absurd hle h1
        · constructor
          · intro hd; exact absurd hd (by simp)
          · rintro ⟨hge, -⟩
            rw [← hcomm] at hge
            exact absurd hge h2
        · simp [not_le.mp (hcomm ▸ h2)]
  · have hL' : ¬ (0 < b.limitAmount) := hL
    refine ⟨fun _ => ?_, fun h => absurd h hL⟩
    simp [hL']

/-- Spec example aggregate: 1,500,000 VND of Food expenses in 2024-03. -/
def aggExample : List (String × Rat) := [("2024-03|Food", 1500000)]

/-- Spec example budget: Food, 2024-03, limit 1,200,000 VND. -/
def budExample : Budget :=
  { id := "bud1", category := "Food", month := "2024-03", limitAmount := 1200000 }

theorem budget_status_thresholds_witness :
    (0 : Rat) < budExample.limitAmount ∧
    (evaluateBudget aggExample "2024-03" budExample).status = BudgetStatus.danger :=
  ⟨by decide,
    (((budget_status_thresholds aggExample "2024-03" budExample).2 (by decide)).1).mpr
      (by decide)⟩

/-- C9: every `BudgetProgress` produced by the Budget Evaluator has
non-negative `remaining` and `overspent`, at least one of the two zero;
with a positive limit their difference is `limit - spent`, and with a
non-positive limit both are forced to zero. -/
theorem budget_remaining_overspent_invariant (agg : List (String × Rat))
    (currentMonthKey : String) (b : Budget) :
    0 ≤ (evaluateBudget agg currentMonthKey b).remaining ∧
    0 ≤ (evaluateBudget agg currentMonthKey b).overspent ∧
    ((evaluateBudget agg currentMonthKey b).remaining = 0 ∨
      (evaluateBudget agg currentMonthKey b).overspent = 0) ∧
    (0 < (evaluateBudget agg currentMonthKey b).limitAmount →
      (evaluateBudget agg currentMonthKey b).remaining -
        (evaluateBudget agg currentMonthKey b).overspent =
      (evaluateBudget agg currentMonthKey b).limitAmount -
        (evaluateBudget agg currentMonthKey b).spent) ∧
    ((evaluateBudget agg currentMonthKey b).limitAmount ≤ 0 →
      (evaluateBudget agg currentMonthKey b).remaining = 0 ∧
      (evaluateBudget agg currentMonthKey b).overspent = 0) := by
  have hlim : (evaluateBudget agg currentMonthKey b).limitAmount = b.limitAmount := rfl
  have hrem : (evaluateBudget agg currentMonthKey b).remaining =
      (if 0 < b.limitAmount then
        max (b.limitAmount - (evaluateBudget agg currentMonthKey b).spent) 0 else 0) := rfl
  have hover : (evaluateBudget agg currentMonthKey b).overspent =
      (if 0 < b.limitAmount then
        max ((evaluateBudget agg currentMonthKey b).spent - b.limitAmount) 0 else 0) := rfl
  set s := (evaluateBudget agg currentMonthKey b).spent with hs
  rw [hlim, hrem, hover]
  by_cases hL : 0 < b.limitAmount
  · simp only [if_pos hL]
    refine ⟨le_max_right _ _, le_max_right _ _, ?_, ?_, ?_⟩
    · rcases le_total s b.limitAmount with h | h
      · exact Or.inr (max_eq_right (sub_nonpos.mpr h))
      · exact Or.inl (max_eq_right (sub_nonpos.mpr h))
    · intro _
      rcases le_total s b.limitAmount with h | h
      · rw [max_eq_left (sub_nonneg.mpr h), max_eq_right (sub_nonpos.mpr h)]
        ring
      · rw [max_eq_right (sub_nonpos.mpr h), max_eq_left (sub_nonneg.mpr h)]
        ring
    · intro h
      exact absurd hL (not_lt.mpr h)
  · simp only [if_neg hL]
    exact ⟨le_refl 0, le_refl 0, Or.inl (by trivial), fun h => absurd h hL,
      fun _ => ⟨by trivial, by trivial⟩⟩

theorem budget_remaining_overspent_invariant_witness :
    (0 : Rat) < (evaluateBudget aggExample "2024-03" budExample).limitAmount ∧
    (evaluateBudget aggExample "2024-03" budExample).remaining -
      (evaluateBudget aggExample "2024-03" budExample).overspent =
    (evaluateBudget aggExample "2024-03" budExample).limitAmount -
      (evaluateBudget aggExample "2024-03" budExample).spent :=
  ⟨by decide,
    (budget_remaining_overspent_invariant aggExample "2024-03" budExample).2.2.2.1
      (by decide)⟩

/-- C10: a budget whose stored month is empty or whitespace-only is
evaluated as if its month were the current month: the output month is the
current month and spent is looked up under (current month, normalized
category), defaulting to 0. -/
theorem budget_blank_month_defaults_to_current (agg : List (String × Rat))
    (currentMonthKey : String) (b : Budget) (h : jsTrim b.month = "") :
    (evaluateBudget agg currentMonthKey b).month = currentMonthKey ∧
    (evaluateBudget agg currentMonthKey b).spent =
      (mapGet agg (currentMonthKey ++ "|" ++ normalizeCategoryName (some b.category))).getD 0 := by
  have hmonth : (evaluateBudget agg currentMonthKey b).month =
      (if (if jsTrim b.month = "" then currentMonthKey else jsTrim b.month) ≠ "" ∧
          currentMonthKey ≠ "" ∧
          compareMonthKeys (if jsTrim b.month = "" then currentMonthKey else jsTrim b.month)
            currentMonthKey < 0
        then currentMonthKey
        else (if jsTrim b.month = "" then currentMonthKey else jsTrim b.month)) := rfl
  have hspent : (evaluateBudget agg currentMonthKey b).spent =
      (mapGet agg ((evaluateBudget agg currentMonthKey b).month ++ "|" ++
        normalizeCategoryName (some b.category))).getD 0 := rfl
  have hm : (evaluateBudget agg currentMonthKey b).month = currentMonthKey := by
    rw [hmonth, if_pos h]
    have hc : ¬ compareMonthKeys currentMonthKey currentMonthKey < 0 := by
      rw [compareMonthKeys_self]
      exact lt_irrefl 0
    by_cases hck : currentMonthKey = ""
    · rw [if_neg]
      rintro ⟨-, hne, -⟩
      exact hne hck
    · rw [if_neg]
      rintro ⟨-, -, hlt⟩
      exact hc hlt
  exact ⟨hm, by rw [hspent, hm]⟩

/-- Concrete budget with a whitespace-only stored month. -/
def budBlankMonth : Budget :=
  { id := "bud2", category := "Food", month := "   ", limitAmount := 1200000 }

theorem budget_blank_month_defaults_to_current_witness :
    jsTrim budBlankMonth.month = "" ∧
    (evaluateBudget aggExample "2024-03" budBlankMonth).month = "2024-03" :=
  ⟨by decide,
    (budget_blank_month_defaults_to_current aggExample "2024-03" budBlankMonth (by decide)).1⟩

/-- C2: with parseable budget and current month keys, the Budget Evaluator's
effective month is the maximum of the two under year-month ordering (a past
budget month is clamped forward to the current month), and spent is looked
up from the aggregates under (effective month, normalized category),
defaulting to 0 when no aggregate entry exists. -/
theorem budget_effective_month_clamp (agg : List (String × Rat)) (currentMonthKey : String)
    (b : Budget) (pb pc : Nat × Nat)
    (hb : parseMonthKey (jsTrim b.month) = some pb)
    (hc : parseMonthKey currentMonthKey = some pc) :
    (evaluateBudget agg currentMonthKey b).month =
      (if pb.1 < pc.1 ∨ (pb.1 = pc.1 ∧ pb.2 < pc.2) then currentMonthKey else jsTrim b.month) ∧
    (evaluateBudget agg currentMonthKey b).spent =
      (mapGet agg ((evaluateBudget agg currentMonthKey b).month ++ "|" ++
        normalizeCategoryName (some b.category))).getD 0 ∧
    (mapGet agg ((evaluateBudget agg currentMonthKey b).month ++ "|" ++
        normalizeCategoryName (some b.category)) = none →
      (evaluateBudget agg currentMonthKey b).spent = 0) := by
  have hb' := parseMonthKey_ne_empty hb
  have hc' := parseMonthKey_ne_empty hc
  have hmonth : (evaluateBudget agg currentMonthKey b).month =
      (if (if jsTrim b.month = "" then currentMonthKey else jsTrim b.month) ≠ "" ∧
          currentMonthKey ≠ "" ∧
          compareMonthKeys (if jsTrim b.month = "" then currentMonthKey else jsTrim b.month)
            currentMonthKey < 0
        then currentMonthKey
        else (if jsTrim b.month = "" then currentMonthKey else jsTrim b.month)) := rfl
  have hspent : (evaluateBudget agg currentMonthKey b).spent =
      (mapGet agg ((evaluateBudget agg currentMonthKey b).month ++ "|" ++
        normalizeCategoryName (some b.category))).getD 0 := rfl
  have hm : (evaluateBudget agg currentMonthKey b).month =
      (if pb.1 < pc.1 ∨ (pb.1 = pc.1 ∧ pb.2 < pc.2) then currentMonthKey
       else jsTrim b.month) := by
    rw [hmonth, if_neg hb']
    by_cases hlex : pb.1 < pc.1 ∨ (pb.1 = pc.1 ∧ pb.2 < pc.2)
    · rw [if_pos ⟨hb', hc', (compareMonthKeys_lt_iff hb hc).mpr hlex⟩, if_pos hlex]
    · rw [if_neg, if_neg hlex]
      rintro ⟨-, -, hlt⟩
      exact hlex ((compareMonthKeys_lt_iff hb hc).mp hlt)
  refine ⟨hm, hspent, fun hnone => ?_⟩
  rw [hspent, hnone]
  rfl

/-- Concrete inputs for the clamp witness: a budget stored for 2024-01
evaluated in 2024-03. -/
def budPastMonth : Budget :=
  { id := "bud3", category := "Food", month := "2024-01", limitAmount := 1200000 }

theorem budget_effective_month_clamp_witness :
    parseMonthKey (jsTrim budPastMonth.month) = some (2024, 1) ∧
    parseMonthKey "2024-03" = some (2024, 3) ∧
    (evaluateBudget aggExample "2024-03" budPastMonth).month = "2024-03" := by
  refine ⟨by decide, by decide, ?_⟩
  have h := (budget_effective_month_clamp aggExample "2024-03" budPastMonth (2024, 1) (2024, 3)
    (by decide) (by decide)).1
  rw [h]
  decide

/-- Amounts a transaction list contributes to one aggregate key, in list
order: amounts of the expense transactions that are not internal transfers,
have a parseable date, and fall under key `k`. -/
def aggContributions (l : List Transaction) (k : String) : List Rat :=
  l.filterMap (fun t =>
    if t.type = TxType.expense ∧ isInternalTransferExpense t = false ∧
        toMonthKey t.createdAt ≠ "" ∧
        toMonthKey t.createdAt ++ "|" ++ normalizeCategoryName (some t.category) = k
    then some t.amount else none)


theorem mapGet_foldl_aggStep (l : List Transaction) (m : List (String × Rat)) (k : String) :
    mapGet (l.foldl aggStep m) k =
      (if aggContributions l k = [] then mapGet m k
       else some ((mapGet m k).getD 0 + (aggContributions l k).sum)) := by
  induction l generalizing m with
  | nil => simp [aggContributions]
  | cons t rest ih =>
    rw [List.foldl_cons]
    by_cases h1 : t.type = TxType.expense
    · by_cases h2 : isInternalTransferExpense t = true
      · have hstep : aggStep m t = m := by
          simp [aggStep, h1, h2]
        have hcontrib : aggContributions (t :: rest) k = aggContributions rest k := by
          simp [aggContributions, List.filterMap_cons, h2]
        rw [hstep, hcontrib, ih]
      · have h2' : isInternalTransferExpense t = false := by
          simpa using h2
        by_cases h3 : toMonthKey t.createdAt = ""
        · have hstep : aggStep m t = m := by
            simp [aggStep, h1, h2', h3]
          have hcontrib : aggContributions (t :: rest) k = aggContributions rest k := by
            simp [aggContributions, List.filterMap_cons, h3]
          rw [hstep, hcontrib, ih]
        · set key := toMonthKey t.createdAt ++ "|" ++ normalizeCategoryName (some t.category)
            with hkey
          have hstep : aggStep m t = mapSet m key ((mapGet m key).getD 0 + t.amount) := by
            simp [aggStep, h1, h2', h3, hkey]
          by_cases h4 : key = k
          · have h4u : toMonthKey t.createdAt ++ "|" ++ normalizeCategoryName (some t.category)
                = k := by
              rw [← hkey]; exact h4
            have hcontrib : aggContributions (t :: rest) k =
                t.amount :: aggContributions rest k := by
              simp [aggContributions, List.filterMap_cons, h1, h2', h3, h4u]
            rw [hstep, hcontrib, ih]
            have hget : mapGet (mapSet m key ((mapGet m key).getD 0 + t.amount)) k =
                some ((mapGet m key).getD 0 + t.amount) := by
              rw [mapGet_mapSet, if_pos h4.symm]
            by_cases h5 : aggContributions rest k = []
            · rw [if_pos h5, if_neg (by simp), hget, h5, h4]
              simp [add_assoc]
            · rw [if_neg h5, if_neg (by simp), hget, h4]
              simp only [Option.getD_some, List.sum_cons]
              rw [add_assoc]
          · have h4u : ¬ (toMonthKey t.createdAt ++ "|" ++ normalizeCategoryName (some t.category)
                = k) := by
              rw [← hkey]; exact h4
            have hcontrib : aggContributions (t :: rest) k = aggContributions rest k := by
              simp [aggContributions, List.filterMap_cons, h4u]
            have hget : mapGet (mapSet m key ((mapGet m key).getD 0 + t.amount)) k =
                mapGet m k := by
              rw [mapGet_mapSet, if_neg (fun hh => h4 hh.symm)]
            rw [hstep, hcontrib, ih, hget]
    · have hstep : aggStep m t = m := by
        simp [aggStep, h1]
      have hcontrib : aggContributions (t :: rest) k = aggContributions rest k := by
        simp [aggContributions, List.filterMap_cons, h1]
      rw [hstep, hcontrib, ih]

/-- C5: the Aggregation Engine is invariant under permutation of its input:
for permuted transaction lists the resulting maps of totals agree on every
key (as JS `Map`s they carry the same totals; only insertion order — which
`get` cannot observe — may differ). -/
theorem aggregate_permutation_invariant (l₁ l₂ : List Transaction) (h : l₁.Perm l₂)
    (k : String) :
    mapGet (expensesByCategoryMonth l₁) k = mapGet (expensesByCategoryMonth l₂) k := by
  have hperm : (aggContributions l₁ k).Perm (aggContributions l₂ k) := h.filterMap _
  have hsum := hperm.sum_eq
  have hnil : aggContributions l₁ k = [] ↔ aggContributions l₂ k = [] := by
    rw [← List.length_eq_zero, ← List.length_eq_zero, hperm.length_eq]
  unfold expensesByCategoryMonth
  rw [mapGet_foldl_aggStep, mapGet_foldl_aggStep]
  by_cases h1 : aggContributions l₁ k = []
  · rw [if_pos h1, if_pos (hnil.mp h1)]
  · rw [if_neg h1, if_neg (fun hh => h1 (hnil.mpr hh)), hsum]

/-- Two Food expenses in 2024-03 (the spec's worked example). -/
def txFood1 : Transaction :=
  { id := "a", amount := 1000000, category := "Food", type := TxType.expense,
    note := none, source := none, createdAt := some ⟨2024, 2⟩ }

/-- Second Food expense of the spec's worked example. -/
def txFood2 : Transaction :=
  { id := "b", amount := 500000, category := "Food", type := TxType.expense,
    note := none, source := none, createdAt := some ⟨2024, 2⟩ }

theorem aggregate_permutation_invariant_witness :
    ([txFood1, txFood2].Perm [txFood2, txFood1]) ∧
    mapGet (expensesByCategoryMonth [txFood1, txFood2]) "2024-03|Food" =
      mapGet (expensesByCategoryMonth [txFood2, txFood1]) "2024-03|Food" :=
  ⟨by decide, aggregate_permutation_invariant _ _ (by decide) _⟩

/-- Internal-transfer expense: category `Rút tiền`, note mentioning the
wallet, March 2024, amount 100. -/
def transferTx : Transaction :=
  { id := "w", amount := 100, category := "Rút tiền", type := TxType.expense,
    note := some "rút từ ví Binance", source := none, createdAt := some ⟨2024, 2⟩ }

/-- C4: the Trend Analyzer counts internal-transfer expenses while the
Aggregation Engine excludes them: for a list holding one internal-transfer
expense, the trend point of its month carries the full amount (and so does
the trend total), yet the aggregate map used by the Budget Evaluator is
empty, so every lookup — in particular the one under that month and
category — yields no entry. -/
theorem trend_counts_internal_transfer_aggregation_excludes :
    isInternalTransferExpense transferTx = true ∧
    ((computeMonthlyTrend [transferTx] TrendRangeKey.all).points.map
      (fun p => (p.date, p.value))) = [(monthIndex ⟨2024, 2⟩, transferTx.amount)] ∧
    (computeMonthlyTrend [transferTx] TrendRangeKey.all).total = transferTx.amount ∧
    expensesByCategoryMonth [transferTx] = [] ∧
    mapGet (expensesByCategoryMonth [transferTx])
      ("2024-03" ++ "|" ++ INTERNAL_TRANSFER_CATEGORY) = none := by
  refine ⟨by decide, ?_, ?_, by decide, by decide⟩
  · have hp : ((computeMonthlyTrend [transferTx] TrendRangeKey.all).points.map
        (fun p => (p.date, p.value))) = [((24290 : Int), (0 : Rat) + 100)] := rfl
    rw [hp]
    norm_num [monthIndex, transferTx]
  · have ht : (computeMonthlyTrend [transferTx] TrendRangeKey.all).total =
        ((0 : Rat) + 100) + 0 := rfl
    rw [ht]
    norm_num [transferTx]

theorem purgeDismissed_cons (b : BudgetProgress) (bs : List BudgetProgress)
    (d : List String) :
    purgeDismissed (b :: bs) d =
      purgeDismissed bs
        (if b.status = BudgetStatus.danger then d else d.filter (fun id => id ≠ b.id)) := rfl

theorem purgeErrors_cons (b : BudgetProgress) (bs : List BudgetProgress)
    (e : List (String × String)) :
    purgeErrors (b :: bs) e =
      purgeErrors bs
        (if b.status = BudgetStatus.danger then e else e.filter (fun x => x.1 ≠ b.id)) := rfl

theorem purgeDismissed_not_mem_mono (bs : List BudgetProgress) (d : List String) (x : String)
    (hx : x ∉ d) : x ∉ purgeDismissed bs d := by
  induction bs generalizing d with
  | nil => exact hx
  | cons hd rest ih =>
    rw [purgeDismissed_cons]
    apply ih
    split
    · exact hx
    · intro hmem
      exact hx (List.mem_of_mem_filter hmem)

theorem purgeErrors_not_mem_mono (bs : List BudgetProgress) (e : List (String × String))
    (x : String × String) (hx : x ∉ e) : x ∉ purgeErrors bs e := by
  induction bs generalizing e with
  | nil => exact hx
  | cons hd rest ih =>
    rw [purgeErrors_cons]
    apply ih
    split
    · exact hx
    · intro hmem
      exact hx (List.mem_of_mem_filter hmem)

theorem purgeDismissed_removes (bs : List BudgetProgress) :
    ∀ (d : List String) (b : BudgetProgress), b ∈ bs →
      b.status ≠ BudgetStatus.danger → b.id ∉ purgeDismissed bs d := by
  induction bs with
  | nil =>
    intro d b hb
    cases hb
  | cons hd rest ih =>
    intro d b hb hs
    rw [purgeDismissed_cons]
    rcases List.mem_cons.mp hb with hb | hb
    · subst hb
      rw [if_neg hs]
      apply purgeDismissed_not_mem_mono
      intro hmem
      have := List.mem_filter.mp hmem
      simp at this
    · exact ih _ b hb hs

theorem purgeErrors_removes (bs : List BudgetProgress) :
    ∀ (e : List (String × String)) (b : BudgetProgress), b ∈ bs →
      b.status ≠ BudgetStatus.danger → ∀ m : String, (b.id, m) ∉ purgeErrors bs e := by
  induction bs with
  | nil =>
    intro e b hb
    cases hb
  | cons hd rest ih =>
    intro e b hb hs m
    rw [purgeErrors_cons]
    rcases List.mem_cons.mp hb with hb | hb
    · subst hb
      rw [if_neg hs]
      apply purgeErrors_not_mem_mono
      intro hmem
      have := List.mem_filter.mp hmem
      simp at this
    · exact ih _ b hb hs m

/-- C7: after the dismissal purge runs over a recomputed `BudgetProgress`
list, no id of a non-danger budget remains in the dismissal set or in the
per-budget error map, and the active alerts are exactly the danger-status
budgets whose id is not in the (purged) dismissal set. -/
theorem alert_dismissal_self_heal (bs : List BudgetProgress) (dismissed : List String)
    (errors : List (String × String)) :
    (∀ b ∈ bs, b.status ≠ BudgetStatus.danger →
      b.id ∉ purgeDismissed bs dismissed ∧
      ∀ m : String, (b.id, m) ∉ purgeErrors bs errors) ∧
    (∀ p : BudgetProgress,
      p ∈ activeBudgetAlerts bs (purgeDismissed bs dismissed) ↔
        (p ∈ bs ∧ p.status = BudgetStatus.danger ∧
          p.id ∉ purgeDismissed bs dismissed)) := by
  constructor
  · intro b hb hs
    exact ⟨purgeDismissed_removes bs dismissed b hb hs,
      purgeErrors_removes bs errors b hb hs⟩
  · intro p
    simp only [activeBudgetAlerts, overspentBudgets, List.mem_filter, decide_eq_true_eq,
      decide_not, Bool.not_eq_true', decide_eq_false_iff_not, and_assoc, List.contains,
      List.elem_iff]

/-- Concrete danger-status budget progress for the alert witness. -/
def bpDanger : BudgetProgress :=
  { id := "b1", category := "Food", month := "2024-03", limitAmount := 100,
    spent := 150, percent := 150, status := BudgetStatus.danger,
    remaining := 0, overspent := 50 }

/-- Concrete ok-status budget progress for the alert witness. -/
def bpOk : BudgetProgress :=
  { id := "b2", category := "Books", month := "2024-03", limitAmount := 100,
    spent := 10, percent := 10, status := BudgetStatus.ok,
    remaining := 90, overspent := 0 }

theorem alert_dismissal_self_heal_witness :
    bpOk ∈ [bpDanger, bpOk] ∧ bpOk.status ≠ BudgetStatus.danger ∧
    bpOk.id ∉ purgeDismissed [bpDanger, bpOk] ["b1", "b2"] :=
  ⟨by decide, by decide,
    ((alert_dismissal_self_heal [bpDanger, bpOk] ["b1", "b2"] [("b2", "stale")]).1 bpOk
      (by decide) (by decide)).1⟩

theorem trendScanStep_skip (s : TrendScanState) (t : Transaction)
    (h : t.createdAt = none) : trendScanStep s t = s := by
  simp [trendScanStep, h]

theorem foldl_trendScanStep_skip (l : List Transaction) (s : TrendScanState)
    (h : ∀ t ∈ l, t.createdAt = none) : l.foldl trendScanStep s = s := by
  induction l with
  | nil => rfl
  | cons t rest ih =>
    rw [List.foldl_cons, trendScanStep_skip s t (h t (List.mem_cons_self t rest))]
    exact ih (fun u hu => h u (List.mem_cons_of_mem t hu))

/-- C8: on a transaction list with no expense carrying a parseable date (in
particular on the empty list), `computeMonthlyTrend` returns the all-empty
result: no points, zero total/average/trailing average, no max/last/previous
point, no previous trailing average, zero non-zero months — and, being a
total function, it trivially does so without throwing. -/
theorem trend_empty_input (ts : List Transaction) (range : TrendRangeKey)
    (h : ∀ t ∈ ts, t.type = TxType.expense → t.createdAt = none) :
    computeMonthlyTrend ts range =
      { points := [], total := 0, average := 0, maxPoint := none, lastPoint := none,
        previousPoint := none, trailingAverage := 0, previousTrailingAverage := none,
        nonZeroMonths := 0 } := by
  have hscan : trendScan ts = ⟨[], none, none⟩ := by
    unfold trendScan
    apply foldl_trendScanStep_skip
    intro t ht
    have := List.mem_filter.mp ht
    exact h t this.1 (by simpa using this.2)
  unfold computeMonthlyTrend
  rw [hscan]
  rfl

/-- Income transaction (never contributes to the trend). -/
def txIncome : Transaction :=
  { id := "i", amount := 900, category := "Salary", type := TxType.income,
    note := none, source := none, createdAt := some ⟨2024, 0⟩ }

/-- Expense whose `createdAt` fails to parse. -/
def txBadDate : Transaction :=
  { id := "bad", amount := 50, category := "Food", type := TxType.expense,
    note := none, source := none, createdAt := none }

theorem trend_empty_input_witness :
    (∀ t ∈ [txIncome, txBadDate], t.type = TxType.expense → t.createdAt = none) ∧
    (computeMonthlyTrend [txIncome, txBadDate] TrendRangeKey.m6).points = [] :=
  ⟨by decide,
    congrArg TrendComputation.points
      (trend_empty_input [txIncome, txBadDate] TrendRangeKey.m6 (by decide))⟩

theorem trendScan_step_some (s : TrendScanState) (t : Transaction) (d : MonthDate)
    (h : t.createdAt = some d) :
    trendScanStep s t =
      { totals := mapSet s.totals (monthIndex d)
          ((mapGet s.totals (monthIndex d)).getD 0 + t.amount)
        minMonth := some (match s.minMonth with
          | none => monthIndex d
          | some mn => if monthIndex d < mn then monthIndex d else mn)
        maxMonth := some (match s.maxMonth with
          | none => monthIndex d
          | some mx => if mx < monthIndex d then monthIndex d else mx) } := by
  simp [trendScanStep, h]

theorem monthsOf_cons_none (t : Transaction) (rest : List Transaction)
    (h : t.createdAt = none) : monthsOf (t :: rest) = monthsOf rest := by
  simp [monthsOf, List.filterMap_cons, h]

theorem monthsOf_cons_some (t : Transaction) (rest : List Transaction) (d : MonthDate)
    (h : t.createdAt = some d) :
    monthsOf (t :: rest) = monthIndex d :: monthsOf rest := by
  simp [monthsOf, List.filterMap_cons, h]

theorem foldl_trendScanStep_minMonth (l : List Transaction) :
    ∀ s : TrendScanState,
      (l.foldl trendScanStep s).minMonth =
        (match s.minMonth with
         | none => (monthsOf l).min?
         | some m => some ((monthsOf l).foldl min m)) := by
  induction l with
  | nil =>
    intro s
    cases hm : s.minMonth <;> simp [monthsOf, hm]
  | cons t rest ih =>
    intro s
    rw [List.foldl_cons]
    cases ht : t.createdAt with
    | none =>
      rw [trendScanStep_skip s t ht, ih, monthsOf_cons_none t rest ht]
    | some d =>
      rw [trendScan_step_some s t d ht, ih, monthsOf_cons_some t rest d ht]
      cases hm : s.minMonth with
      | none => simp [List.min?]
      | some m =>
        have hminc : (if monthIndex d < m then monthIndex d else m) = min m (monthIndex d) := by
          rcases lt_or_le (monthIndex d) m with h | h
          · rw [if_pos h, min_eq_right (le_of_lt h)]
          · rw [if_neg (not_lt.mpr h), min_eq_left h]
        simp only [hminc, List.foldl_cons]

theorem foldl_trendScanStep_maxMonth (l : List Transaction) :
    ∀ s : TrendScanState,
      (l.foldl trendScanStep s).maxMonth =
        (match s.maxMonth with
         | none => (monthsOf l).max?
         | some m => some ((monthsOf l).foldl max m)) := by
  induction l with
  | nil =>
    intro s
    cases hm : s.maxMonth <;> simp [monthsOf, hm]
  | cons t rest ih =>
    intro s
    rw [List.foldl_cons]
    cases ht : t.createdAt with
    | none =>
      rw [trendScanStep_skip s t ht, ih, monthsOf_cons_none t rest ht]
    | some d =>
      rw [trendScan_step_some s t d ht, ih, monthsOf_cons_some t rest d ht]
      cases hm : s.maxMonth with
      | none => simp [List.max?]
      | some m =>
        have hmaxc : (if m < monthIndex d then monthIndex d else m) = max m (monthIndex d) := by
          rcases lt_or_le m (monthIndex d) with h | h
          · rw [if_pos h, max_eq_right (le_of_lt h)]
          · rw [if_neg (not_lt.mpr h), max_eq_left h]
        simp only [hmaxc, List.foldl_cons]

theorem trendScan_minMonth (ts : List Transaction) :
    (trendScan ts).minMonth = (dataMonths ts).min? := by
  unfold trendScan dataMonths
  rw [foldl_trendScanStep_minMonth]

theorem trendScan_maxMonth (ts : List Transaction) :
    (trendScan ts).maxMonth = (dataMonths ts).max? := by
  unfold trendScan dataMonths
  rw [foldl_trendScanStep_maxMonth]

theorem foldl_trendScanStep_totals_none (l : List Transaction) :
    ∀ (s : TrendScanState) (i : Int),
      mapGet (l.foldl trendScanStep s).totals i = none ↔
        (mapGet s.totals i = none ∧ i ∉ monthsOf l) := by
  induction l with
  | nil =>
    intro s i
    simp [monthsOf]
  | cons t rest ih =>
    intro s i
    rw [List.foldl_cons]
    cases ht : t.createdAt with
    | none =>
      rw [trendScanStep_skip s t ht, ih, monthsOf_cons_none t rest ht]
    | some d =>
      rw [trendScan_step_some s t d ht, ih, monthsOf_cons_some t rest d ht]
      constructor
      · rintro ⟨hmap, hnot⟩
        rw [mapGet_mapSet] at hmap
        by_cases hi : i = monthIndex d
        · rw [if_pos hi] at hmap
          exact absurd hmap (by simp)
        · rw [if_neg hi] at hmap
          exact ⟨hmap, by simp [hi, hnot]⟩
      · rintro ⟨hmap, hnot⟩
        have hi : i ≠ monthIndex d := by
          intro hh
          exact hnot (by simp [hh])
        refine ⟨?_, fun hh => hnot (List.mem_cons_of_mem _ hh)⟩
        rw [mapGet_mapSet, if_neg hi]
        exact hmap

theorem buildTrendPoints_length (totals : List (Int × Rat)) (start endM : Int) :
    (buildTrendPoints totals start endM).length = (max 0 (endM - start)).toNat + 1 := by
  unfold buildTrendPoints
  rw [List.length_map, List.length_range]

theorem buildTrendPoints_dates (totals : List (Int × Rat)) (start endM : Int) :
    (buildTrendPoints totals start endM).map (fun p => p.date) =
      (List.range ((max 0 (endM - start)).toNat + 1)).map
        (fun (off : Nat) => start + (off : Int)) := by
  unfold buildTrendPoints
  rw [List.map_map]
  rfl

theorem buildTrendPoints_value (totals : List (Int × Rat)) (start endM : Int)
    (p : TrendPoint) (hp : p ∈ buildTrendPoints totals start endM) :
    p.value = (mapGet totals p.date).getD 0 := by
  unfold buildTrendPoints at hp
  obtain ⟨off, -, rfl⟩ := List.mem_map.mp hp
  rfl

theorem trendStats_points (pts : List TrendPoint) : (trendStats pts).points = pts := rfl

/-- C3: when the expense data is non-empty (the month list of dated expenses
has a minimum `mn` and maximum `mx`), the Trend Analyzer emits exactly one
point per calendar month from the window start to `mx` inclusive — the
emitted dates are the consecutive months starting at the window start, their
count is `monthsBetween start mx + 1` — where the window start is
`max mn (mx - (N - 1))` for a finite look-back of `N` months and `mn` for
the full range; a month with no dated expense gets a zero-valued point, and
for the full range the point count is `monthsBetween mn mx + 1`. -/
theorem trend_window_points (ts : List Transaction) (range : TrendRangeKey) (mn mx : Int)
    (hmn : (dataMonths ts).min? = some mn) (hmx : (dataMonths ts).max? = some mx) :
    (computeMonthlyTrend ts range).points.length =
      monthsBetween (trendStart mn mx range) mx + 1 ∧
    ((computeMonthlyTrend ts range).points.map (fun p => p.date)) =
      (List.range (monthsBetween (trendStart mn mx range) mx + 1)).map
        (fun (off : Nat) => trendStart mn mx range + (off : Int)) ∧
    (∀ n : Int, rangeMonths range = some n →
      trendStart mn mx range = max mn (mx - (n - 1))) ∧
    (rangeMonths range = none → trendStart mn mx range = mn) ∧
    (∀ p ∈ (computeMonthlyTrend ts range).points,
      p.date ∉ dataMonths ts → p.value = 0) ∧
    (range = TrendRangeKey.all →
      (computeMonthlyTrend ts range).points.length = monthsBetween mn mx + 1) := by
  have hsmin : (trendScan ts).minMonth = some mn := by
    rw [trendScan_minMonth, hmn]
  have hsmax : (trendScan ts).maxMonth = some mx := by
    rw [trendScan_maxMonth, hmx]
  have hcomp : computeMonthlyTrend ts range =
      trendStats (buildTrendPoints (trendScan ts).totals (trendStart mn mx range) mx) := by
    show (match (trendScan ts).minMonth, (trendScan ts).maxMonth with
      | some mn, some mx =>
        trendStats (buildTrendPoints (trendScan ts).totals (trendStart mn mx range) mx)
      | _, _ => emptyTrend) =
      trendStats (buildTrendPoints (trendScan ts).totals (trendStart mn mx range) mx)
    rw [hsmin, hsmax]
  have htoNat : (max 0 (mx - trendStart mn mx range)).toNat + 1 =
      monthsBetween (trendStart mn mx range) mx + 1 := by
    unfold monthsBetween
    omega
  have hlen : (computeMonthlyTrend ts range).points.length =
      monthsBetween (trendStart mn mx range) mx + 1 := by
    rw [hcomp, trendStats_points, buildTrendPoints_length, htoNat]
  refine ⟨hlen, ?_, ?_, ?_, ?_, ?_⟩
  · rw [hcomp, trendStats_points, buildTrendPoints_dates, htoNat]
  · intro n hn
    cases range <;> simp only [rangeMonths, Option.some.injEq, reduceCtorEq] at hn <;>
      subst hn <;>
      · simp only [trendStart, rangeMonths]
        rw [max_def]
        split_ifs <;> omega
  · intro hn
    cases range <;> simp [rangeMonths] at hn
    rfl
  · intro p hp hnot
    rw [hcomp, trendStats_points] at hp
    rw [buildTrendPoints_value _ _ _ p hp]
    have hnone : mapGet (trendScan ts).totals p.date = none := by
      unfold trendScan
      rw [foldl_trendScanStep_totals_none]
      exact ⟨rfl, by
        intro hmem
        exact hnot (by unfold dataMonths; exact hmem)⟩
    rw [hnone]
    rfl
  · intro hr
    subst hr
    rw [hlen]
    rfl

/-- Expense transaction in month `m` of 2024 (helper for concrete inputs). -/
def trendTx (tag : String) (m : Fin 12) (amt : Rat) : Transaction :=
  { id := tag, amount := amt, category := "Food", type := TxType.expense,
    note := none, source := none, createdAt := some ⟨2024, m⟩ }

/-- January and March 2024 expenses (trend-window witness data). -/
def tsWindow : List Transaction :=
  [trendTx "w1" 0 200000, trendTx "w2" 2 400000]

theorem trend_window_points_witness :
    (dataMonths tsWindow).min? = some 24288 ∧
    (dataMonths tsWindow).max? = some 24290 ∧
    (computeMonthlyTrend tsWindow TrendRangeKey.m3).points.length =
      monthsBetween (trendStart 24288 24290 TrendRangeKey.m3) 24290 + 1 :=
  ⟨by decide, by decide,
    (trend_window_points tsWindow TrendRangeKey.m3 24288 24290 (by decide) (by decide)).1⟩

theorem trendStats_trailing_slices (pts : List TrendPoint) (N : Nat)
    (hN : pts.length = N) (h1 : 1 ≤ N) :
    (trendStats pts).trailingAverage =
      ((pts.drop (N - min 3 N)).map (fun p => p.value)).sum / ((min 3 N : Nat) : Rat) ∧
    (N ≤ 3 → (trendStats pts).previousTrailingAverage = none) ∧
    (3 < N → (trendStats pts).previousTrailingAverage =
      some ((((pts.drop (N - 6)).take (min 3 (N - 3))).map (fun p => p.value)).sum /
        ((min 3 (N - 3) : Nat) : Rat))) := by
  subst hN
  refine ⟨?_, ?_, ?_⟩
  · have hta : (trendStats pts).trailingAverage =
        (if (pts.drop (pts.length - min 3 pts.length)).length ≠ 0 then
          ((pts.drop (pts.length - min 3 pts.length)).map (fun p => p.value)).sum /
            (((pts.drop (pts.length - min 3 pts.length)).length : Nat) : Rat)
        else 0) := rfl
    have hlen : (pts.drop (pts.length - min 3 pts.length)).length = min 3 pts.length := by
      rw [List.length_drop]
      omega
    rw [hta, if_pos (by rw [hlen]; omega), hlen]
  · intro h3
    have hprev : (trendStats pts).previousTrailingAverage =
        (if ((pts.drop (pts.length - 2 * min 3 pts.length)).take
              ((pts.length - min 3 pts.length) -
                (pts.length - 2 * min 3 pts.length))).length ≠ 0 then
          some ((((pts.drop (pts.length - 2 * min 3 pts.length)).take
              ((pts.length - min 3 pts.length) -
                (pts.length - 2 * min 3 pts.length))).map (fun p => p.value)).sum /
            ((((pts.drop (pts.length - 2 * min 3 pts.length)).take
              ((pts.length - min 3 pts.length) -
                (pts.length - 2 * min 3 pts.length))).length : Nat) : Rat))
        else none) := rfl
    have hlen0 : ((pts.drop (pts.length - 2 * min 3 pts.length)).take
        ((pts.length - min 3 pts.length) - (pts.length - 2 * min 3 pts.length))).length = 0 := by
      rw [List.length_take, List.length_drop]
      omega
    rw [hprev, if_neg (fun hne => hne hlen0)]
  · intro h3
    have hw3 : min 3 pts.length = 3 := by omega
    have hprev : (trendStats pts).previousTrailingAverage =
        (if ((pts.drop (pts.length - 2 * min 3 pts.length)).take
              ((pts.length - min 3 pts.length) -
                (pts.length - 2 * min 3 pts.length))).length ≠ 0 then
          some ((((pts.drop (pts.length - 2 * min 3 pts.length)).take
              ((pts.length - min 3 pts.length) -
                (pts.length - 2 * min 3 pts.length))).map (fun p => p.value)).sum /
            ((((pts.drop (pts.length - 2 * min 3 pts.length)).take
              ((pts.length - min 3 pts.length) -
                (pts.length - 2 * min 3 pts.length))).length : Nat) : Rat))
        else none) := rfl
    have hst : pts.length - 2 * min 3 pts.length = pts.length - 6 := by omega
    rw [hprev, hst]
    have hcnt : (pts.length - min 3 pts.length) - (pts.length - 6) =
        min 3 (pts.length - 3) := by omega
    rw [hcnt]
    have hlen' : ((pts.drop (pts.length - 6)).take (min 3 (pts.length - 3))).length =
        min 3 (pts.length - 3) := by
      rw [List.length_take, List.length_drop]
      omega
    rw [if_pos (by rw [hlen']; omega), hlen']

/-- Four consecutive monthly expenses, Jan–Apr 2024 (previous-trailing-window
counterexample data: only one point precedes the 3-point trailing window). -/
def tsQuad : List Transaction :=
  [trendTx "q1" 0 100, trendTx "q2" 1 200, trendTx "q3" 2 300, trendTx "q4" 3 400]

/-- C6 counterexample: with `N = 4` emitted points there do not exist
`min(3, N) = 3` points preceding the trailing window (only `N - 3 = 1`
does), so the claim's reading "`previousTrailingAverage` is the mean of the
`min(3,N)` points immediately preceding the trailing window, or absent if
unavailable" demands an absent value — yet the analyzer returns a present
average (of the single preceding point). -/
theorem trend_previous_trailing_claim_counterexample :
    (computeMonthlyTrend tsQuad TrendRangeKey.all).points.length = 4 ∧
    ¬ (min 3 4 ≤ 4 - min 3 4) ∧
    (computeMonthlyTrend tsQuad TrendRangeKey.all).previousTrailingAverage ≠ none := by
  refine ⟨by decide, by decide, ?_⟩
  have h : (computeMonthlyTrend tsQuad TrendRangeKey.all).previousTrailingAverage =
      some ((((0 : Rat) + 100) + 0) / ((1 : Nat) : Rat)) := rfl
  rw [h]
  exact Option.some_ne_none _

/-- C6 (amended): for a trend result with `N ≥ 1` points, `trailingAverage`
is the mean of the last `min(3, N)` points; `previousTrailingAverage` is
absent exactly when no point precedes the trailing window (`N ≤ 3`), and
otherwise is the mean of the `min(3, N - 3)` points immediately preceding
the trailing window (a partial window when fewer than 3 precede it). -/
theorem trend_trailing_averages (ts : List Transaction) (range : TrendRangeKey) (N : Nat)
    (hN : (computeMonthlyTrend ts range).points.length = N) (h1 : 1 ≤ N) :
    (computeMonthlyTrend ts range).trailingAverage =
      (((computeMonthlyTrend ts range).points.drop (N - min 3 N)).map
        (fun p => p.value)).sum / ((min 3 N : Nat) : Rat) ∧
    (N ≤ 3 → (computeMonthlyTrend ts range).previousTrailingAverage = none) ∧
    (3 < N → (computeMonthlyTrend ts range).previousTrailingAverage =
      some (((((computeMonthlyTrend ts range).points.drop (N - 6)).take
          (min 3 (N - 3))).map (fun p => p.value)).sum /
        ((min 3 (N - 3) : Nat) : Rat))) := by
  rcases hc : (trendScan ts).minMonth with _ | mn <;>
    rcases hd : (trendScan ts).maxMonth with _ | mx
  case none.none =>
    have hcomp : computeMonthlyTrend ts range = emptyTrend := by
      show (match (trendScan ts).minMonth, (trendScan ts).maxMonth with
        | some mn, some mx =>
          trendStats (buildTrendPoints (trendScan ts).totals (trendStart mn mx range) mx)
        | _, _ => emptyTrend) = emptyTrend
      rw [hc, hd]
    rw [hcomp] at hN
    simp [emptyTrend] at hN
    omega
  case none.some =>
    have hcomp : computeMonthlyTrend ts range = emptyTrend := by
      show (match (trendScan ts).minMonth, (trendScan ts).maxMonth with
        | some mn, some mx =>
          trendStats (buildTrendPoints (trendScan ts).totals (trendStart mn mx range) mx)
        | _, _ => emptyTrend) = emptyTrend
      rw [hc, hd]
    rw [hcomp] at hN
    simp [emptyTrend] at hN
    omega
  case some.none =>
    have hcomp : computeMonthlyTrend ts range = emptyTrend := by
      show (match (trendScan ts).minMonth, (trendScan ts).maxMonth with
        | some mn, some mx =>
          trendStats (buildTrendPoints (trendScan ts).totals (trendStart mn mx range) mx)
        | _, _ => emptyTrend) = emptyTrend
      rw [hc, hd]
    rw [hcomp] at hN
    simp [emptyTrend] at hN
    omega
  case some.some =>
    have hcomp : computeMonthlyTrend ts range =
        trendStats (buildTrendPoints (trendScan ts).totals (trendStart mn mx range) mx) := by
      show (match (trendScan ts).minMonth, (trendScan ts).maxMonth with
        | some mn, some mx =>
          trendStats (buildTrendPoints (trendScan ts).totals (trendStart mn mx range) mx)
        | _, _ => emptyTrend) =
        trendStats (buildTrendPoints (trendScan ts).totals (trendStart mn mx range) mx)
      rw [hc, hd]
    rw [hcomp] at hN ⊢
    rw [trendStats_points] at hN ⊢
    exact trendStats_trailing_slices _ N hN h1

theorem trend_trailing_averages_witness :
    (computeMonthlyTrend tsQuad TrendRangeKey.all).points.length = 4 ∧
    (3 < 4 → (computeMonthlyTrend tsQuad TrendRangeKey.all).previousTrailingAverage =
      some (((((computeMonthlyTrend tsQuad TrendRangeKey.all).points.drop (4 - 6)).take
          (min 3 (4 - 3))).map (fun p => p.value)).sum /
        ((min 3 (4 - 3) : Nat) : Rat))) :=
  ⟨by decide,
    (trend_trailing_averages tsQuad TrendRangeKey.all 4 (by decide) (by decide)).2.2⟩
